import Mathlib

/-!
Verification development for the document-sync core of
`appflowy_editor_sync_plugin` (src/rust/src/doc/document_service.rs).

The replicated container store (the yrs crate) is an external collaborator
(spec §6): its maps are modelled as insertion-ordered association lists and
its binary snapshot/diff blobs as an inductive `UpdateBlob`, per the
interface contract of §6.  Repository code that is not part of the given
source (BlockOperations, UpdateOperations, MapExt, constants, types) is
modelled from the spec and marked as such in its doc comment.
-/

/-- Mirror of `yrs::Any` (the scalar payloads storable in a yrs map/array).
`anum` carries the `Any::Number` (f64) payload, modelled as a rational;
`abigint` carries `Any::BigInt` (i64). -/
inductive YAny where
  | anull : YAny
  | aundef : YAny
  | abool (b : Bool) : YAny
  | anum (q : Rat) : YAny
  | abigint (i : Int) : YAny
  | astr (s : String) : YAny
  | aarr (xs : List YAny) : YAny
  | amap (entries : List (String × YAny)) : YAny
  | abuf (bytes : List Nat) : YAny

/-- Mirror of `yrs::Value` as used by the source: plain `Any` payloads,
nested map/array containers, and a collapsed `yother` for the remaining
container shapes (text, XML, sub-documents) which the source's
`yrs_value_to_json` sends to the catch-all `_ => JsonValue::Null` branch. -/
inductive YVal where
  | any (a : YAny) : YVal
  | yarr (xs : List YVal) : YVal
  | ymap (entries : List (String × YVal)) : YVal
  | yother : YVal

/-- Entry list of a yrs map container, in insertion order (stable iteration
order per spec §6). -/
abbrev YEntries := List (String × YVal)

/-- A serde_json number: `jint` for numbers the parser stored as an integer
(`as_i64` succeeds), `jfloat` for numbers stored as `f64` (`as_i64` fails,
`as_f64` succeeds) — e.g. the JSON text `1.0` parses to `jfloat 1`. -/
inductive JNum where
  | jint (i : Int) : JNum
  | jfloat (q : Rat) : JNum

/-- Mirror of `serde_json::Value` (parsing mechanics are out of scope per
spec §1; operations take the parsed value). -/
inductive JsonValue where
  | jnull : JsonValue
  | jbool (b : Bool) : JsonValue
  | jnum (n : JNum) : JsonValue
  | jstr (s : String) : JsonValue
  | jarr (xs : List JsonValue) : JsonValue
  | jobj (entries : List (String × JsonValue)) : JsonValue

/-- Mirror of `DocError` (doc/error.rs, declared via the spec's §7 error
kinds); `CustomRustError` merely wraps it for the host boundary. -/
inductive DocError where
  | invalidOperation (msg : String) : DocError
  | encodingError (msg : String) : DocError
  | decodeUpdateFailure (msg : String) : DocError

/-- Constant `ROOT_ID` (doc/constants.rs, not under src/): name of the Root
container.  The literal value is opaque to every claim. -/
def ROOT_ID : String := "root"

/-- Constant `BLOCKS` (doc/constants.rs, not under src/): key of the Blocks
container inside Root. -/
def BLOCKS : String := "blocks"

/-- Constant `META` (doc/constants.rs, not under src/): key of the Meta
container inside Root. -/
def META : String := "meta"

/-- Constant `DEFAULT_PARENT` (doc/constants.rs, not under src/): sentinel
parent id for top-level nodes (spec §3). -/
def DEFAULT_PARENT : String := "default_parent"

/-- Lookup in an insertion-ordered association list (yrs `Map::get`). -/
def mapGet {α : Type} : List (String × α) → String → Option α
  | [], _ => none
  | p :: rest, k => if p.1 = k then some p.2 else mapGet rest k

/-- Insert/overwrite in an insertion-ordered association list
(yrs `Map::insert`): an existing key keeps its position, a new key is
appended at the end. -/
def mapSet {α : Type} : List (String × α) → String → α → List (String × α)
  | [], k, v => [(k, v)]
  | p :: rest, k, v => if p.1 = k then (k, v) :: rest else p :: mapSet rest k v

/-- Key removal in an association list (yrs `Map::remove`). -/
def mapRemove {α : Type} : List (String × α) → String → List (String × α)
  | [], _ => []
  | p :: rest, k => if p.1 = k then mapRemove rest k else p :: mapRemove rest k

/-- The root map of one document (state of `DocumentService.doc`): every
operation in the source goes through `doc.get_or_insert_map(ROOT_ID)`, so the
document state is the Root container's entry list. -/
abbrev DocState := YEntries

/-- View of the nested map container stored at key `k`, the empty entry list
when `k` is absent or holds a non-map value. -/
def getMapEntries (m : YEntries) (k : String) : YEntries :=
  match mapGet m k with
  | some (.ymap es) => es
  | _ => []

/-- View of the nested array container stored at key `k`, the empty list
when `k` is absent or holds a non-array value. -/
def getArrItems (m : YEntries) (k : String) : List YVal :=
  match mapGet m k with
  | some (.yarr xs) => xs
  | _ => []

/-- Modelled from the spec: `MapExt::get_or_init_map` (doc/utils, not under
src/), the §6 get-or-create of a named nested map container: returns the
updated parent entries together with the container's entries; a fresh empty
map is materialized when the key is absent (or holds a non-map value). -/
def get_or_init_map (m : YEntries) (k : String) : YEntries × YEntries :=
  match mapGet m k with
  | some (.ymap es) => (m, es)
  | _ => (mapSet m k (.ymap []), [])

/-- Modelled from the spec: `MapExt::get_or_init_array` (doc/utils, not
under src/), the §6 get-or-create of a named nested array container. -/
def get_or_init_array (m : YEntries) (k : String) : YEntries × List YVal :=
  match mapGet m k with
  | some (.yarr xs) => (m, xs)
  | _ => (mapSet m k (.yarr []), [])

/-- Meta view of a document: the entries of the Meta container (empty when
Meta has not been materialized yet). -/
def metaContent (d : DocState) : YEntries := getMapEntries d META

/-- Blocks view of a document: the entries of the Blocks container. -/
def blocksOf (d : DocState) : YEntries := getMapEntries d BLOCKS

/-- Binary update blob (spec §6): a full snapshot relative to the empty
state vector (`encode_state_as_update_v2(&StateVector::default())`), a diff
relative to the transaction's before-state (`encode_diff_v2(before_state)`),
or undecodable bytes. -/
inductive UpdateBlob where
  | snapshot (s : DocState) : UpdateBlob
  | diffU (before after : DocState) : UpdateBlob
  | malformed (msg : String) : UpdateBlob

/-- Modelled from the spec: the store's merge of incoming update content
into a document (§6).  Only the bootstrap identity — applying content to an
empty document yields exactly that content — is relied upon by any theorem;
conflicts on shared keys are abstracted as incoming-wins. -/
def mergeDoc (d s : DocState) : DocState :=
  d.filter (fun p => (mapGet s p.1).isNone) ++ s

/-- Modelled from the spec: application of one binary update to a document
(§6); undecodable bytes fail with `DecodeUpdateFailure` (§7). -/
def applyUpdate (d : DocState) : UpdateBlob → Except DocError DocState
  | .snapshot s => .ok (mergeDoc d s)
  | .diffU _ after => .ok (mergeDoc d after)
  | .malformed msg => .error (.decodeUpdateFailure msg)

/-- Mirror of `DocumentService` (the handle over one document). -/
structure DocumentService where
  doc : DocState
  doc_id : String

/-- Mirror of `DocumentService::new` — a fresh handle over an empty
document, `doc_id` `"xxxx"` as in the source. -/
def DocumentService.new : DocumentService :=
  { doc := [], doc_id := "xxxx" }

/-- Mirror of `BlockActionTypeDoc` (doc/document_types.rs, not under src/;
the four variants are matched explicitly in `apply_action`). -/
inductive BlockActionTypeDoc where
  | insert : BlockActionTypeDoc
  | update : BlockActionTypeDoc
  | delete : BlockActionTypeDoc
  | move : BlockActionTypeDoc
deriving DecidableEq

/-- Modelled from the spec: the block payload of `BlockActionDoc`
(doc/document_types.rs, not under src/).  Fields are those read by
`apply_action` (`id`, `parent_id`, `old_parent_id`, `prev_id`, `next_id`)
plus the spec §3 node data (`ty` for the block kind tag, `content` as an
opaque payload map). -/
structure BlockDoc where
  id : String
  ty : String
  content : YEntries
  parent_id : Option String
  old_parent_id : Option String
  prev_id : Option String
  next_id : Option String

/-- Modelled from the spec: `BlockActionDoc` (doc/document_types.rs, not
under src/): one action of a batch, with its `path`/`old_path` ordinal
positions (spec §4.1). -/
structure BlockActionDoc where
  action : BlockActionTypeDoc
  block : BlockDoc
  path : List Nat
  old_path : Option (List Nat)

/-- Whether a stored array element is the `Any::String` equal to `v` — the
equality used by the dedup scan of `push_meta_array_item` and the removal
scan of `remove_meta_array_item`. -/
def isStrEq (v : String) : YVal → Bool
  | .any (.astr s) => s == v
  | _ => false

/-- Field lookup inside a block node (a nested `ymap`). -/
def nodeField (n : YVal) (f : String) : Option YVal :=
  match n with
  | .ymap es => mapGet es f
  | _ => none

/-- String field of a block node, `none` when absent or non-string. -/
def nodeStr (n : YVal) (f : String) : Option String :=
  match nodeField n f with
  | some (.any (.astr s)) => some s
  | _ => none

/-- Write (or, for `none`, erase) an optional string field of a node. -/
def setFieldStrOpt (n : YVal) (f : String) (v : Option String) : YVal :=
  match n with
  | .ymap es =>
    match v with
    | some s => .ymap (mapSet es f (.any (.astr s)))
    | none => .ymap (mapRemove es f)
  | _ => n

/-- Rewrite one optional-string field of the node named by `who` (no-op when
`who` is `none` or names no node). -/
def adjustNode (bs : YEntries) (who : Option String) (f : String)
    (v : Option String) : YEntries :=
  match who with
  | none => bs
  | some w =>
    match mapGet bs w with
    | some n => mapSet bs w (setFieldStrOpt n f v)
    | none => bs

/-- Rewrite the `next_id` pointer of the node named by `who`. -/
def setNextOf (bs : YEntries) (who v : Option String) : YEntries :=
  adjustNode bs who "next_id" v

/-- Rewrite the `prev_id` pointer of the node named by `who`. -/
def setPrevOf (bs : YEntries) (who v : Option String) : YEntries :=
  adjustNode bs who "prev_id" v

/-- Whether an entry is the designated first child of parent `p`: its
`parent_id` is `p` and it has no `prev_id` (spec §3 sibling-chain head). -/
def isFirstChildOf (p : String) (kv : String × YVal) : Bool :=
  nodeStr kv.2 "parent_id" == some p && (nodeStr kv.2 "prev_id").isNone

/-- Id of the designated first child of `p`, if any. -/
def firstChildId (bs : YEntries) (p : String) : Option String :=
  (bs.find? (isFirstChildOf p)).map (·.1)

/-- Walk a sibling chain along `next_id` pointers; `fuel` bounds the walk so
that malformed states (cycles, dangling pointers) still terminate. -/
def chainFrom (bs : YEntries) : Option String → Nat → List String
  | _, 0 => []
  | none, _ => []
  | some i, fuel + 1 =>
    match mapGet bs i with
    | some n => i :: chainFrom bs (nodeStr n "next_id") fuel
    | none => [i]

/-- Ordered children of parent `p`, derived by walking the sibling chain
from the first child (spec §4.4 reading, §3 invariants). -/
def childIds (bs : YEntries) (p : String) : List String :=
  chainFrom bs (firstChildId bs p) bs.length

/-- Ordinal position encoded by a path: its last component (the path prefix
addresses the ancestors; only the final ordinal positions the node among its
parent's children, spec §4.1). -/
def pathIndex (p : List Nat) : Nat := p.getLast?.getD 0

/-- Build the stored node map for a freshly inserted block. -/
def mkNode (bid ty : String) (content : YEntries) (p : String)
    (pr nx : Option String) : YVal :=
  let base : YEntries :=
    [("id", .any (.astr bid)), ("type", .any (.astr ty)),
     ("content", .ymap content), ("parent_id", .any (.astr p))]
  let b2 := match pr with
    | some s => base ++ [("prev_id", YVal.any (.astr s))]
    | none => base
  let b3 := match nx with
    | some s => b2 ++ [("next_id", YVal.any (.astr s))]
    | none => b2
  .ymap b3

/-- Modelled from the spec: `BlockOperations::insert_node`
(operations/block_ops.rs, not under src/).  Fails with `InvalidOperation`
when a node with that id already exists; otherwise records the node under
its parent at the path's ordinal position and splices the sibling pointers
of the displaced neighbors (spec §4.1 Insert). -/
def insert_node (bs : YEntries) (a : BlockActionDoc) : Except DocError YEntries :=
  match mapGet bs a.block.id with
  | some _ => .error (.invalidOperation "Block already exists")
  | none =>
    let p := a.block.parent_id.getD DEFAULT_PARENT
    let pos := pathIndex a.path
    let kids := childIds bs p
    let pr := if pos = 0 then none else kids.get? (pos - 1)
    let nx := kids.get? pos
    let bs1 := mapSet bs a.block.id (mkNode a.block.id a.block.ty a.block.content p pr nx)
    let bs2 := setNextOf bs1 pr (some a.block.id)
    let bs3 := setPrevOf bs2 nx (some a.block.id)
    .ok bs3

/-- Modelled from the spec: `BlockOperations::update_node`
(operations/block_ops.rs, not under src/).  Fails with `InvalidOperation`
when the node does not exist; otherwise merges the incoming `content` keys
and `type` into the stored node, leaving parent/sibling pointers untouched
(spec §4.1 Update). -/
def update_node (bs : YEntries) (a : BlockActionDoc) : Except DocError YEntries :=
  match mapGet bs a.block.id with
  | none => .error (.invalidOperation "Block not found")
  | some n =>
    let oldContent : YEntries :=
      match nodeField n "content" with
      | some (.ymap es) => es
      | _ => []
    let merged := a.block.content.foldl (fun acc kv => mapSet acc kv.1 kv.2) oldContent
    let n1 := match n with
      | .ymap es =>
        YVal.ymap (mapSet (mapSet es "type" (.any (.astr a.block.ty))) "content" (.ymap merged))
      | _ => n
    .ok (mapSet bs a.block.id n1)

/-- Modelled from the spec: `BlockOperations::delete_node`
(operations/block_ops.rs, not under src/).  Relinks the neighbors of the
block inside the given parent's sibling chain to close the gap and removes
the node from Blocks (spec §4.1 Delete); a nonexistent block is a no-op. -/
def delete_node (bs : YEntries) (bid p : String) : Except DocError YEntries :=
  match mapGet bs bid with
  | none => .ok bs
  | some n =>
    let bs1 :=
      if nodeStr n "parent_id" = some p then
        setPrevOf (setNextOf bs (nodeStr n "prev_id") (nodeStr n "next_id"))
          (nodeStr n "next_id") (nodeStr n "prev_id")
      else bs
    .ok (mapRemove bs1 bid)

/-- Modelled from the spec: `BlockOperations::move_block`
(operations/block_ops.rs, not under src/).  Detaches the block from the old
parent's chain (relinking its old neighbors), attaches it into the new
parent's chain — between the supplied `prev_id`/`next_id` when present,
otherwise at the ordinal position of `new_path` — and rewrites the block's
own `parent_id` (spec §4.1 Move); a nonexistent block is a no-op. -/
def move_block (bs : YEntries) (old_path new_path : List Nat)
    (p old_p bid : String) (ph nh : Option String) : Except DocError YEntries :=
  match mapGet bs bid with
  | none => .ok bs
  | some n =>
    let _ := old_path
    let bs1 :=
      if nodeStr n "parent_id" = some old_p then
        setPrevOf (setNextOf bs (nodeStr n "prev_id") (nodeStr n "next_id"))
          (nodeStr n "next_id") (nodeStr n "prev_id")
      else bs
    let kids := (childIds bs1 p).filter (fun x => !(x == bid))
    let pos := pathIndex new_path
    let pr : Option String :=
      match ph, nh with
      | some x, _ => some x
      | none, some y =>
        match mapGet bs1 y with
        | some ny => nodeStr ny "prev_id"
        | none => none
      | none, none => if pos = 0 then none else kids.get? (pos - 1)
    let nx : Option String :=
      match ph, nh with
      | _, some y => some y
      | some x, none =>
        match mapGet bs1 x with
        | some nxn => nodeStr nxn "next_id"
        | none => none
      | none, none => kids.get? pos
    let n2 := setFieldStrOpt (setFieldStrOpt (setFieldStrOpt n "parent_id" (some p))
      "prev_id" pr) "next_id" nx
    let bs2 := mapSet bs1 bid n2
    let bs3 := setNextOf bs2 pr (some bid)
    let bs4 := setPrevOf bs3 nx (some bid)
    .ok bs4

/-- The per-iteration `root.get_or_init_map(&mut txn, BLOCKS)` of the
`apply_action` loop: document state with the Blocks container ensured. -/
def ensureBlocks (d : DocState) : DocState := (get_or_init_map d BLOCKS).1

/-- Write an updated Blocks entry list back into the document. -/
def writeBlocks (d : DocState) (bs : YEntries) : DocState :=
  mapSet d BLOCKS (.ymap bs)

/-- One iteration of the `apply_action` loop (document_service.rs lines
83-113): ensure Blocks, then dispatch on the action type.  A Delete with an
absent `parent_id` substitutes `DEFAULT_PARENT`; a Move missing any of
`old_path`, `parent_id`, `old_parent_id` fails with `InvalidOperation`
before the block operation is attempted. -/
def applyOneAction (d : DocState) (a : BlockActionDoc) : Except DocError DocState :=
  let d1 := ensureBlocks d
  let bs := getMapEntries d BLOCKS
  match a.action with
  | .insert => (insert_node bs a).map (writeBlocks d1)
  | .update => (update_node bs a).map (writeBlocks d1)
  | .delete =>
    (delete_node bs a.block.id (a.block.parent_id.getD DEFAULT_PARENT)).map (writeBlocks d1)
  | .move =>
    match a.old_path, a.block.parent_id, a.block.old_parent_id with
    | some op, some pid, some opid =>
      (move_block bs op a.path pid opid a.block.id a.block.prev_id a.block.next_id).map
        (writeBlocks d1)
    | _, _, _ => .error (.invalidOperation "Missing required fields for move operation")

/-- The `for action in actions` loop of `apply_action`: fold the actions in
order; on the first failing action return the error together with the
document as already mutated (the transaction commits what was done so far —
no rollback, spec §7/§9). -/
def applyActionsLoop : DocState → List BlockActionDoc → DocState × Option DocError
  | d, [] => (d, none)
  | d, a :: rest =>
    match applyOneAction d a with
    | .ok d2 => applyActionsLoop d2 rest
    | .error e => (ensureBlocks d, some e)

/-- Mirror of `DocumentService::apply_action` (document_service.rs lines
70-121): process the batch in order; on success encode the diff of the
transaction against its before-state, on failure return the error (and no
diff) while keeping the mutations already made. -/
def apply_action (svc : DocumentService) (actions : List BlockActionDoc) :
    DocumentService × Except DocError UpdateBlob :=
  match applyActionsLoop svc.doc actions with
  | (d2, none) => ({ svc with doc := d2 }, .ok (.diffU svc.doc d2))
  | (d2, some e) => ({ svc with doc := d2 }, .error e)

/-- Mirror of `DocumentService::init_empty_doc` (document_service.rs lines
33-53): materialize the Blocks container in Root, then return the full
state encoded against the empty state vector. -/
def init_empty_doc (svc : DocumentService) : DocumentService × Except DocError UpdateBlob :=
  let d2 := (get_or_init_map svc.doc BLOCKS).1
  ({ svc with doc := d2 }, .ok (.snapshot d2))

/-- Mirror of `DocumentService::encode_full_state` (document_service.rs
lines 59-65): snapshot of the whole current document relative to the empty
state vector. -/
def encode_full_state (svc : DocumentService) : Except DocError UpdateBlob :=
  .ok (.snapshot svc.doc)

/-- Modelled from the spec: `UpdateOperations::apply_updates_inner`
(operations/update_ops.rs, not under src/): applies the given binary
updates in order to the passed document via the store merge (§4.3/§6),
failing when an update cannot be decoded. -/
def apply_updates_inner (d : DocState) : List UpdateBlob → Except DocError DocState
  | [] => .ok d
  | u :: rest =>
    match applyUpdate d u with
    | .ok d2 => apply_updates_inner d2 rest
    | .error e => .error e

/-- Mirror of `DocumentService::apply_updates` (document_service.rs lines
126-158): build a fresh empty document, apply all updates to it, and only
on success swap it in as the handle's document; on failure the `?` operator
returns before the swap, leaving the prior document untouched. -/
def apply_updates (svc : DocumentService) (updates : List UpdateBlob) :
    DocumentService × Except DocError Unit :=
  match apply_updates_inner [] updates with
  | .ok newDoc => ({ svc with doc := newDoc }, .ok ())
  | .error e => (svc, .error e)

/-- Minimal JSON string escaping (backslash and double quote), modelling the
string mechanics of `serde_json::to_string` (out of scope per spec §1 beyond
being a fixed injective-enough encoding shared by every use). -/
def jesc (s : String) : String :=
  ⟨s.data.foldr (fun c acc => if c = '"' ∨ c = '\\' then '\\' :: c :: acc else c :: acc) []⟩

mutual
/-- Model of `serde_json::to_string` over parsed values; float text is
abstracted as num/den of the rational payload. -/
def JsonValue.render : JsonValue → String
  | .jnull => "null"
  | .jbool true => "true"
  | .jbool false => "false"
  | .jnum (.jint i) => toString i
  | .jnum (.jfloat q) => toString q.num ++ "/" ++ toString q.den
  | .jstr s => "\x22" ++ jesc s ++ "\x22"
  | .jarr xs => "[" ++ String.intercalate "," (JsonValue.renderList xs) ++ "]"
  | .jobj es => "\x7b" ++ String.intercalate "," (JsonValue.renderEntries es) ++ "\x7d"

/-- Render each array element. -/
def JsonValue.renderList : List JsonValue → List String
  | [] => []
  | v :: vs => JsonValue.render v :: JsonValue.renderList vs

/-- Render each object entry as `"key":value`. -/
def JsonValue.renderEntries : List (String × JsonValue) → List String
  | [] => []
  | (k, v) :: es =>
    ("\x22" ++ jesc k ++ "\x22:" ++ JsonValue.render v) :: JsonValue.renderEntries es
end

mutual
/-- Mirror of `DocumentService::yrs_any_to_json` (document_service.rs lines
461-487): recursive conversion of an `Any` payload to JSON. -/
def yrs_any_to_json : YAny → JsonValue
  | .anull => .jnull
  | .aundef => .jnull
  | .abool b => .jbool b
  | .anum q => .jnum (.jfloat q)
  | .abigint i => .jnum (.jint i)
  | .astr s => .jstr s
  | .aarr xs => .jarr (yrs_any_list xs)
  | .amap es => .jobj (yrs_any_entries es)
  | .abuf bytes => .jarr (bytes.map (fun b => JsonValue.jnum (.jint (Int.ofNat b))))

/-- Elementwise conversion of an `Any` array. -/
def yrs_any_list : List YAny → List JsonValue
  | [] => []
  | v :: vs => yrs_any_to_json v :: yrs_any_list vs

/-- Entrywise conversion of an `Any` map. -/
def yrs_any_entries : List (String × YAny) → List (String × JsonValue)
  | [] => []
  | (k, v) :: es => (k, yrs_any_to_json v) :: yrs_any_entries es
end

mutual
/-- Mirror of `DocumentService::yrs_value_to_json` (document_service.rs
lines 440-458): `Any` payloads convert recursively, array containers
convert elementwise, map containers convert to objects, every other
container shape falls to the `_ => Null` catch-all. -/
def yrs_value_to_json : YVal → JsonValue
  | .any a => yrs_any_to_json a
  | .yarr xs => .jarr (yrs_value_list xs)
  | .ymap es => .jobj (yrs_value_entries es)
  | .yother => .jnull

/-- Elementwise conversion of an array container. -/
def yrs_value_list : List YVal → List JsonValue
  | [] => []
  | v :: vs => yrs_value_to_json v :: yrs_value_list vs

/-- Entrywise conversion of a map container. -/
def yrs_value_entries : List (String × YVal) → List (String × JsonValue)
  | [] => []
  | (k, v) :: es => (k, yrs_value_to_json v) :: yrs_value_entries es
end

/-- Mirror of `DocumentService::set_meta_string_array` (document_service.rs
lines 315-335): remove any existing value at the key, create a fresh array
and push every given string in order (duplicates allowed as given). -/
def set_meta_string_array (svc : DocumentService) (key : String)
    (values : List String) : DocumentService × Except DocError UpdateBlob :=
  let d0 := svc.doc
  let g := get_or_init_map d0 META
  let metaEs1 := mapRemove g.2 key
  let g2 := get_or_init_array metaEs1 key
  let arr1 := g2.2 ++ values.map (fun v => YVal.any (.astr v))
  let metaEs2 := mapSet g2.1 key (.yarr arr1)
  let d2 := mapSet g.1 META (.ymap metaEs2)
  ({ svc with doc := d2 }, .ok (.diffU d0 d2))

/-- Mirror of `DocumentService::push_meta_array_item` (document_service.rs
lines 344-370): get-or-create the array at the key, scan it for an
`Any::String` equal to the value, and push the value only when absent. -/
def push_meta_array_item (svc : DocumentService) (key value : String) :
    DocumentService × Except DocError UpdateBlob :=
  let d0 := svc.doc
  let g := get_or_init_map d0 META
  let g2 := get_or_init_array g.2 key
  let arr := g2.2
  let already := arr.any (isStrEq value)
  let arr1 := if already then arr else arr ++ [YVal.any (.astr value)]
  let metaEs2 := mapSet g2.1 key (.yarr arr1)
  let d2 := mapSet g.1 META (.ymap metaEs2)
  ({ svc with doc := d2 }, .ok (.diffU d0 d2))

/-- Mirror of `DocumentService::remove_meta_array_item` (document_service.rs
lines 379-408): when the key holds an array container, find the first
`Any::String` element equal to the value and remove it by index; in every
other case nothing is removed. -/
def remove_meta_array_item (svc : DocumentService) (key value : String) :
    DocumentService × Except DocError UpdateBlob :=
  let d0 := svc.doc
  let g := get_or_init_map d0 META
  match mapGet g.2 key with
  | some (.yarr arr) =>
    match arr.findIdx? (fun v => isStrEq value v) with
    | some i =>
      let metaEs2 := mapSet g.2 key (.yarr (arr.eraseIdx i))
      let d2 := mapSet g.1 META (.ymap metaEs2)
      ({ svc with doc := d2 }, .ok (.diffU d0 d2))
    | none => ({ svc with doc := g.1 }, .ok (.diffU d0 g.1))
  | _ => ({ svc with doc := g.1 }, .ok (.diffU d0 g.1))

/-- Mirror of `DocumentService::get_all_meta` (document_service.rs lines
416-437), up to the final JSON serialization to a string (mechanics out of
scope per spec §1): iterate the Meta container's entries in order and
convert each value via `yrs_value_to_json`; an absent (or non-map) Meta
yields the empty object. -/
def get_all_meta (svc : DocumentService) : Except DocError (List (String × JsonValue)) :=
  match mapGet svc.doc META with
  | some (.ymap metaEs) => .ok (metaEs.map (fun kv => (kv.1, yrs_value_to_json kv.2)))
  | _ => .ok []

/-- One key of the `set_meta_from_json` loop (document_service.rs lines
511-540): null removes the key; booleans insert `Any::Bool`; numbers insert
`Any::BigInt` when `as_i64` succeeds and `Any::Number` otherwise; strings
insert `Any::String`; arrays replace the key with a fresh array holding
only the string elements; nested objects are serialized to a JSON string
and inserted as a string scalar. -/
def metaStepJson (metaEs : YEntries) (k : String) (v : JsonValue) : YEntries :=
  match v with
  | .jnull => mapRemove metaEs k
  | .jbool b => mapSet metaEs k (.any (.abool b))
  | .jnum (.jint i) => mapSet metaEs k (.any (.abigint i))
  | .jnum (.jfloat q) => mapSet metaEs k (.any (.anum q))
  | .jstr s => mapSet metaEs k (.any (.astr s))
  | .jarr xs =>
    let m1 := mapRemove metaEs k
    let arr := xs.filterMap (fun it =>
      match it with
      | JsonValue.jstr s => some (YVal.any (.astr s))
      | _ => none)
    mapSet m1 k (.yarr arr)
  | .jobj es => mapSet metaEs k (.any (.astr (JsonValue.render (.jobj es))))

/-- Mirror of `DocumentService::set_meta_from_json` (document_service.rs
lines 497-546), taking the parsed JSON value (parse mechanics out of scope
per spec §1): a non-object input fails with `InvalidOperation`; an object
is applied entry by entry, in order, via `metaStepJson`. -/
def set_meta_from_json (svc : DocumentService) (j : JsonValue) :
    DocumentService × Except DocError UpdateBlob :=
  match j with
  | .jobj entries =>
    let d0 := svc.doc
    let g := get_or_init_map d0 META
    let metaEs2 := entries.foldl (fun acc kv => metaStepJson acc kv.1 kv.2) g.2
    let d2 := mapSet g.1 META (.ymap metaEs2)
    ({ svc with doc := d2 }, .ok (.diffU d0 d2))
  | _ => (svc, .error (.invalidOperation "Expected JSON object"))

/-- Number of elements of the array at Meta key `k` that are the
`Any::String` equal to `v` (0 when the key is absent or not an array). -/
def countOccur (d : DocState) (k v : String) : Nat :=
  ((getArrItems (metaContent d) k).filter (isStrEq v)).length

/-- Spec-side definition (follows the spec's words for the amended C7
claim): the per-key mapping of `setFromBulk`, to be compared with the
source-derived `metaStepJson`. -/
def setFromBulkStep (metaEs : YEntries) (k : String) (v : JsonValue) : YEntries :=
  match v with
  | .jnull => mapRemove metaEs k
  | .jbool b => mapSet metaEs k (.any (.abool b))
  | .jnum (.jint i) => mapSet metaEs k (.any (.abigint i))
  | .jnum (.jfloat q) => mapSet metaEs k (.any (.anum q))
  | .jstr s => mapSet metaEs k (.any (.astr s))
  | .jarr xs =>
    let m1 := mapRemove metaEs k
    let arr := xs.filterMap (fun it =>
      match it with
      | JsonValue.jstr s => some (YVal.any (.astr s))
      | _ => none)
    mapSet m1 k (.yarr arr)
  | .jobj es => mapSet metaEs k (.any (.astr (JsonValue.render (.jobj es))))

/-- Spec-side definition (follows the claim C7's words as frozen): a number
is stored as an integer when it has no fractional part and as a float
otherwise. -/
def claimNumberRule (n : JNum) : YVal :=
  match n with
  | .jint i => .any (.abigint i)
  | .jfloat q => if q.den = 1 then .any (.abigint q.num) else .any (.anum q)

/-- Concrete Insert action: block `"x"` of kind `"paragraph"` under the
default parent at position 0 (used by witnesses). -/
def exInsertX : BlockActionDoc :=
  { action := .insert,
    block := { id := "x", ty := "paragraph", content := [],
               parent_id := some DEFAULT_PARENT, old_parent_id := none,
               prev_id := none, next_id := none },
    path := [0], old_path := none }

/-- Concrete Update action for a nonexistent block id `"zz"` — fails with
`InvalidOperation` (used by witnesses). -/
def exUpdateMissing : BlockActionDoc :=
  { action := .update,
    block := { id := "zz", ty := "paragraph", content := [],
               parent_id := some DEFAULT_PARENT, old_parent_id := none,
               prev_id := none, next_id := none },
    path := [0], old_path := none }

/-- Concrete Move action with an absent `old_path` — rejected by the Move
guard (used by witnesses). -/
def exMoveMissing : BlockActionDoc :=
  { action := .move,
    block := { id := "x", ty := "paragraph", content := [],
               parent_id := some DEFAULT_PARENT, old_parent_id := some DEFAULT_PARENT,
               prev_id := none, next_id := none },
    path := [0], old_path := none }

/-- Concrete Delete action for block `"x"` with an absent `parent_id`
(used by witnesses for the default-parent substitution). -/
def exDeleteNoParent : BlockActionDoc :=
  { action := .delete,
    block := { id := "x", ty := "paragraph", content := [],
               parent_id := none, old_parent_id := none,
               prev_id := none, next_id := none },
    path := [0], old_path := none }

/-- Concrete document handle holding block `"x"` (obtained by applying
`exInsertX` to a fresh service; used by witnesses). -/
def exSvcWithX : DocumentService := (apply_action DocumentService.new [exInsertX]).1

/-! ## Helper lemmas -/

theorem mapGet_mapSet_self {α : Type} (m : List (String × α)) (k : String) (v : α) :
    mapGet (mapSet m k v) k = some v := by
  induction m with
  | nil => simp [mapGet, mapSet]
  | cons p rest ih =>
    by_cases h : p.1 = k
    · simp [mapGet, mapSet, h]
    · simp [mapGet, mapSet, h, ih]

theorem mapGet_mapRemove_self {α : Type} (m : List (String × α)) (k : String) :
    mapGet (mapRemove m k) k = none := by
  induction m with
  | nil => simp [mapGet, mapRemove]
  | cons p rest ih =>
    by_cases h : p.1 = k
    · simp [mapRemove, h, ih]
    · simp [mapGet, mapRemove, h, ih]

theorem getMapEntries_mapSet_self (m : YEntries) (k : String) (es : YEntries) :
    getMapEntries (mapSet m k (.ymap es)) k = es := by
  simp [getMapEntries, mapGet_mapSet_self]

theorem get_or_init_map_snd (m : YEntries) (k : String) :
    (get_or_init_map m k).2 = getMapEntries m k := by
  unfold get_or_init_map getMapEntries
  cases h : mapGet m k with
  | none => simp
  | some v => cases v <;> simp

theorem get_or_init_map_fst_view (m : YEntries) (k : String) :
    getMapEntries (get_or_init_map m k).1 k = getMapEntries m k := by
  unfold get_or_init_map
  cases h : mapGet m k with
  | none => simp [getMapEntries, h, mapGet_mapSet_self]
  | some v =>
    cases v <;> simp [getMapEntries, h, mapGet_mapSet_self]

theorem get_or_init_array_snd (m : YEntries) (k : String) :
    (get_or_init_array m k).2 = getArrItems m k := by
  unfold get_or_init_array getArrItems
  cases h : mapGet m k with
  | none => simp
  | some v => cases v <;> simp

theorem applyActionsLoop_append (d : DocState) (pre rest : List BlockActionDoc) :
    applyActionsLoop d (pre ++ rest) =
      (match applyActionsLoop d pre with
       | (d1, none) => applyActionsLoop d1 rest
       | (d1, some e) => (d1, some e)) := by
  induction pre generalizing d with
  | nil => simp [applyActionsLoop]
  | cons a pre ih =>
    simp only [List.cons_append, applyActionsLoop]
    cases h : applyOneAction d a with
    | ok d2 => simpa using ih d2
    | error e => simp

/-! ## Claim theorems -/

/-- C1: if the action at some index of the batch fails, `apply_action`
returns that action's error and produces no diff, the actions after it are
not applied (the result does not depend on them), and the mutations of the
earlier actions remain in the document (no rollback). -/
theorem c1_partial_batch_on_failure (svc : DocumentService)
    (pre : List BlockActionDoc) (a : BlockActionDoc) (post : List BlockActionDoc)
    (d1 : DocState) (e : DocError)
    (h1 : applyActionsLoop svc.doc pre = (d1, none))
    (h2 : applyOneAction d1 a = .error e) :
    apply_action svc (pre ++ a :: post) =
      ({ svc with doc := ensureBlocks d1 }, .error e) := by
  unfold apply_action
  rw [applyActionsLoop_append, h1]
  simp only [applyActionsLoop, h2]

/-- Witness for C1 at a concrete batch: an Insert of `"x"` succeeds, the
Update of the nonexistent `"zz"` fails, the trailing Insert is never
applied, and the document keeps the inserted block. -/
theorem c1_partial_batch_on_failure_witness :
    apply_action DocumentService.new ([exInsertX] ++ exUpdateMissing :: [exInsertX]) =
      ({ DocumentService.new with
          doc := ensureBlocks (applyActionsLoop DocumentService.new.doc [exInsertX]).1 },
       .error (.invalidOperation "Block not found")) :=
  c1_partial_batch_on_failure DocumentService.new [exInsertX] exUpdateMissing [exInsertX]
    (applyActionsLoop DocumentService.new.doc [exInsertX]).1
    (.invalidOperation "Block not found") rfl rfl

/-- C2: a Move action missing any of `old_path`, `parent_id`,
`old_parent_id` makes `apply_action` fail with `InvalidOperation`, and the
block operation itself is not attempted: the document is exactly the state
after the earlier actions (with only the per-iteration Blocks ensure). -/
theorem c2_move_missing_fields (svc : DocumentService)
    (pre : List BlockActionDoc) (a : BlockActionDoc) (post : List BlockActionDoc)
    (d1 : DocState)
    (h1 : applyActionsLoop svc.doc pre = (d1, none))
    (hm : a.action = .move)
    (habs : a.old_path = none ∨ a.block.parent_id = none ∨ a.block.old_parent_id = none) :
    apply_action svc (pre ++ a :: post) =
      ({ svc with doc := ensureBlocks d1 },
       .error (.invalidOperation "Missing required fields for move operation")) := by
  have h2 : applyOneAction d1 a =
      .error (.invalidOperation "Missing required fields for move operation") := by
    unfold applyOneAction
    rw [hm]
    rcases habs with h | h | h <;> rw [h] <;>
      cases hop : a.old_path <;> cases hp : a.block.parent_id <;>
        cases hq : a.block.old_parent_id <;> simp_all
  exact c1_partial_batch_on_failure svc pre a post d1 _ h1 h2

/-- C3 counterexample: on a fresh document, `init_empty_doc` materializes
only the Blocks container; the Meta container is NOT established — its key
is absent from the Root container after init, refuting the claim that init
establishes both empty containers. -/
theorem c3_counterexample_no_meta :
    (init_empty_doc DocumentService.new).1.doc = [(BLOCKS, YVal.ymap [])] ∧
    mapGet (init_empty_doc DocumentService.new).1.doc META = none ∧
    (∀ es : YEntries, mapGet (init_empty_doc DocumentService.new).1.doc META ≠ some (.ymap es)) :=
  ⟨rfl, rfl, fun _ h => Option.noConfusion h⟩

/-- C3 amended: `init_empty_doc` on a fresh document establishes the empty
Blocks container inside Root (Meta is not created by init — it is
materialized lazily by the first metadata operation) and returns the
encoding of that initial state as a snapshot relative to the empty state
vector. -/
theorem c3_init_establishes_blocks :
    mapGet (init_empty_doc DocumentService.new).1.doc BLOCKS = some (YVal.ymap []) ∧
    mapGet (init_empty_doc DocumentService.new).1.doc META = none ∧
    (init_empty_doc DocumentService.new).2 =
      .ok (.snapshot (init_empty_doc DocumentService.new).1.doc) :=
  ⟨rfl, rfl, rfl⟩

/-- C4: `apply_updates` either fully replaces the handle's document with a
document built from only the given updates (starting from a fresh empty
document, so prior local state is discarded), or fails leaving the prior
document unchanged. -/
theorem c4_apply_updates_replace_or_unchanged (svc : DocumentService)
    (updates : List UpdateBlob) :
    (∃ d, apply_updates_inner [] updates = .ok d ∧
       apply_updates svc updates = ({ svc with doc := d }, .ok ())) ∨
    (∃ e, apply_updates_inner [] updates = .error e ∧
       apply_updates svc updates = (svc, .error e)) := by
  unfold apply_updates
  cases h : apply_updates_inner [] updates with
  | ok d => exact Or.inl ⟨d, rfl, rfl⟩
  | error e => exact Or.inr ⟨e, rfl, rfl⟩

/-- C5: the snapshot returned by `encode_full_state` (encoded relative to
the empty state vector), fed through `apply_updates` into a freshly created
empty document, reproduces the source document exactly — in particular the
metadata view and the Blocks tree coincide. -/
theorem c5_full_state_roundtrip (svc : DocumentService) :
    encode_full_state svc = .ok (.snapshot svc.doc) ∧
    (apply_updates DocumentService.new [.snapshot svc.doc]).1.doc = svc.doc ∧
    get_all_meta (apply_updates DocumentService.new [.snapshot svc.doc]).1 =
      get_all_meta svc ∧
    blocksOf (apply_updates DocumentService.new [.snapshot svc.doc]).1.doc =
      blocksOf svc.doc :=
  ⟨rfl, rfl, rfl, rfl⟩

theorem delete_node_ok (bs : YEntries) (bid p : String) :
    ∃ bs2, delete_node bs bid p = .ok bs2 ∧ mapGet bs2 bid = none := by
  unfold delete_node
  cases h : mapGet bs bid with
  | none => exact ⟨bs, rfl, h⟩
  | some n => exact ⟨_, rfl, mapGet_mapRemove_self _ _⟩

/-- C10: a Delete action with an absent `parent_id` does not fail on the
missing field: `DEFAULT_PARENT` is substituted as the parent id and the
block is deleted from that sentinel parent's chain (the delete succeeds,
the block is gone from Blocks, and the single-action batch returns a
diff). -/
theorem c10_delete_missing_parent_defaults (svc : DocumentService)
    (a : BlockActionDoc) (hd : a.action = .delete) (hp : a.block.parent_id = none) :
    applyOneAction svc.doc a =
      (delete_node (getMapEntries svc.doc BLOCKS) a.block.id DEFAULT_PARENT).map
        (writeBlocks (ensureBlocks svc.doc)) ∧
    ∃ d2, applyOneAction svc.doc a = .ok d2 ∧
      mapGet (getMapEntries d2 BLOCKS) a.block.id = none ∧
      apply_action svc [a] = ({ svc with doc := d2 }, .ok (.diffU svc.doc d2)) := by
  have h1 : applyOneAction svc.doc a =
      (delete_node (getMapEntries svc.doc BLOCKS) a.block.id DEFAULT_PARENT).map
        (writeBlocks (ensureBlocks svc.doc)) := by
    unfold applyOneAction
    rw [hd, hp]
    rfl
  obtain ⟨bs2, hbs2, hnone⟩ :=
    delete_node_ok (getMapEntries svc.doc BLOCKS) a.block.id DEFAULT_PARENT
  have h2 : applyOneAction svc.doc a = .ok (writeBlocks (ensureBlocks svc.doc) bs2) := by
    rw [h1, hbs2]; rfl
  refine ⟨h1, writeBlocks (ensureBlocks svc.doc) bs2, h2, ?_, ?_⟩
  · unfold writeBlocks
    rw [getMapEntries_mapSet_self]
    exact hnone
  · unfold apply_action
    have hloop : applyActionsLoop svc.doc [a] =
        (writeBlocks (ensureBlocks svc.doc) bs2, none) := by
      simp only [applyActionsLoop, h2]
    rw [hloop]

/-- Witness for C10 on a document actually containing block `"x"`: deleting
it with an absent `parent_id` succeeds and removes the block. -/
theorem c10_delete_missing_parent_defaults_witness :
    applyOneAction exSvcWithX.doc exDeleteNoParent =
      (delete_node (getMapEntries exSvcWithX.doc BLOCKS) exDeleteNoParent.block.id
        DEFAULT_PARENT).map (writeBlocks (ensureBlocks exSvcWithX.doc)) ∧
    ∃ d2, applyOneAction exSvcWithX.doc exDeleteNoParent = .ok d2 ∧
      mapGet (getMapEntries d2 BLOCKS) exDeleteNoParent.block.id = none ∧
      apply_action exSvcWithX [exDeleteNoParent] =
        ({ exSvcWithX with doc := d2 }, .ok (.diffU exSvcWithX.doc d2)) :=
  c10_delete_missing_parent_defaults exSvcWithX exDeleteNoParent rfl rfl

/-- C9: `remove_meta_array_item` is a no-op on the Meta view (and never an
error) when the key is absent, when the stored value is not an array, or
when no `Any::String` element equals the value; otherwise it removes
exactly the first matching element, by its index. -/
theorem c9_remove_array_item (svc : DocumentService) (k v : String) :
    metaContent ((remove_meta_array_item svc k v).1).doc =
      (match mapGet (metaContent svc.doc) k with
       | some (.yarr arr) =>
         match arr.findIdx? (fun x => isStrEq v x) with
         | some i => mapSet (metaContent svc.doc) k (.yarr (arr.eraseIdx i))
         | none => metaContent svc.doc
       | _ => metaContent svc.doc) ∧
    ∃ u, (remove_meta_array_item svc k v).2 = .ok u := by
  constructor
  · unfold remove_meta_array_item
    simp only [metaContent, get_or_init_map_snd]
    cases hm : mapGet (getMapEntries svc.doc META) k with
    | none => simp [get_or_init_map_fst_view]
    | some val =>
      cases val with
      | yarr arr =>
        cases hi : arr.findIdx? (fun x => isStrEq v x) with
        | some i => simp [hi, getMapEntries_mapSet_self]
        | none => simp [hi, get_or_init_map_fst_view]
      | any a => simp [get_or_init_map_fst_view]
      | ymap es => simp [get_or_init_map_fst_view]
      | yother => simp [get_or_init_map_fst_view]
  · unfold remove_meta_array_item
    simp only [get_or_init_map_snd]
    cases hm : mapGet (getMapEntries svc.doc META) k with
    | none => exact ⟨_, rfl⟩
    | some val =>
      cases val with
      | yarr arr =>
        cases hi : arr.findIdx? (fun x => isStrEq v x) with
        | some i => simp [hi]
        | none => simp [hi]
      | any a => exact ⟨_, rfl⟩
      | ymap es => exact ⟨_, rfl⟩
      | yother => exact ⟨_, rfl⟩

/-- C7 counterexample: on input `{"k": 1.0}` (a JSON number parsed as f64
with zero fractional part) the code stores the float scalar `Any::Number 1`,
while the claim's rule — integer whenever there is no fractional part —
demands the integer scalar `Any::BigInt 1`; the two stored values differ. -/
theorem c7_counterexample_float_without_fraction :
    metaContent ((set_meta_from_json DocumentService.new
        (.jobj [("k", .jnum (.jfloat 1))])).1).doc = [("k", YVal.any (.anum 1))] ∧
    claimNumberRule (.jfloat 1) = .any (.abigint 1) ∧
    YVal.any (.anum 1) ≠ YVal.any (.abigint 1) := by
  refine ⟨rfl, rfl, fun h => YVal.noConfusion h (fun h2 => YAny.noConfusion h2)⟩

/-- C7 amended: `set_meta_from_json` applies the object's entries key by
key in the given order with this mapping: null removes the key; a boolean
or string is stored as that scalar; a number is stored as an integer when
the parser stored it as an integer (`as_i64` succeeds) and as a float
otherwise (including floats with zero fractional part such as `1.0`); an
array replaces the key with a fresh array keeping only the string
elements; a nested object is serialized to a JSON string and stored as a
string scalar — exactly the spec-side `setFromBulkStep` folded over the
entries. -/
theorem c7_set_from_bulk_amended (svc : DocumentService)
    (entries : List (String × JsonValue)) :
    metaContent ((set_meta_from_json svc (.jobj entries)).1).doc =
      entries.foldl (fun acc kv => setFromBulkStep acc kv.1 kv.2) (metaContent svc.doc) ∧
    ∃ u, (set_meta_from_json svc (.jobj entries)).2 = .ok u := by
  have hstep : setFromBulkStep = metaStepJson := rfl
  constructor
  · unfold set_meta_from_json
    simp only [metaContent, hstep, get_or_init_map_snd, getMapEntries_mapSet_self]
  · exact ⟨_, rfl⟩

theorem yrs_value_list_eq_map (xs : List YVal) :
    yrs_value_list xs = xs.map yrs_value_to_json := by
  induction xs with
  | nil => simp [yrs_value_list]
  | cons v vs ih => simp [yrs_value_list, ih]

/-- C8 counterexample: a Meta key holding a nested map container (a shape
only another client version would store) renders as a JSON object, not as
`null` as the claim states for any stored shape other than scalars and
arrays. -/
theorem c8_counterexample_map_renders_object :
    get_all_meta { doc := [(META, YVal.ymap [("m", YVal.ymap [])])], doc_id := "xxxx" } =
      .ok [("m", JsonValue.jobj [])] ∧
    JsonValue.jobj [] ≠ JsonValue.jnull := by
  constructor
  · simp [get_all_meta, mapGet, META, yrs_value_to_json, yrs_value_entries]
  · exact fun h => JsonValue.noConfusion h

/-- C8 amended: `get_all_meta` returns the Meta keys in insertion order,
each mapped through the recursive materialization: `Any` scalars pass
through unchanged, array containers render elementwise (so arrays of
strings become ordered string sequences), map containers render as JSON
objects, and only the remaining container shapes (text, XML, subdocument)
render as `null`. -/
theorem c8_get_all_meta_amended (svc : DocumentService) :
    get_all_meta svc =
      .ok ((metaContent svc.doc).map (fun kv => (kv.1, yrs_value_to_json kv.2))) ∧
    (∀ s, yrs_value_to_json (.any (.astr s)) = .jstr s) ∧
    (∀ i, yrs_value_to_json (.any (.abigint i)) = .jnum (.jint i)) ∧
    (∀ q, yrs_value_to_json (.any (.anum q)) = .jnum (.jfloat q)) ∧
    (∀ b, yrs_value_to_json (.any (.abool b)) = .jbool b) ∧
    (∀ xs, yrs_value_to_json (.yarr xs) = .jarr (xs.map yrs_value_to_json)) ∧
    (∀ ss : List String, yrs_value_to_json (.yarr (ss.map (fun s => YVal.any (.astr s)))) =
      .jarr (ss.map JsonValue.jstr)) ∧
    (∀ es, yrs_value_to_json (.ymap es) = .jobj (yrs_value_entries es)) ∧
    yrs_value_to_json .yother = .jnull := by
  refine ⟨?_, ?_, ?_, ?_, ?_, ?_, ?_, ?_, ?_⟩
  · unfold get_all_meta
    cases hm : mapGet svc.doc META with
    | none => simp [metaContent, getMapEntries, hm]
    | some val =>
      cases val with
      | ymap es => simp [metaContent, getMapEntries, hm]
      | any a => simp [metaContent, getMapEntries, hm]
      | yarr xs => simp [metaContent, getMapEntries, hm]
      | yother => simp [metaContent, getMapEntries, hm]
  · intro s; simp [yrs_value_to_json, yrs_any_to_json]
  · intro i; simp [yrs_value_to_json, yrs_any_to_json]
  · intro q; simp [yrs_value_to_json, yrs_any_to_json]
  · intro b; simp [yrs_value_to_json, yrs_any_to_json]
  · intro xs; simp [yrs_value_to_json, yrs_value_list_eq_map]
  · intro ss
    simp [yrs_value_to_json, yrs_value_list_eq_map, List.map_map, Function.comp,
      yrs_any_to_json]
  · intro es; simp [yrs_value_to_json]
  · simp [yrs_value_to_json]

theorem getArrItems_mapSet_self (m : YEntries) (k : String) (xs : List YVal) :
    getArrItems (mapSet m k (.yarr xs)) k = xs := by
  simp [getArrItems, mapGet_mapSet_self]

theorem push_countOccur (svc : DocumentService) (k v : String) :
    countOccur ((push_meta_array_item svc k v).1).doc k v =
      if countOccur svc.doc k v = 0 then 1 else countOccur svc.doc k v := by
  unfold push_meta_array_item countOccur
  simp only [metaContent, get_or_init_map_snd, get_or_init_array_snd,
    getMapEntries_mapSet_self, getArrItems_mapSet_self]
  cases h : (getArrItems (getMapEntries svc.doc META) k).any (isStrEq v) with
  | true =>
    have hne : ((getArrItems (getMapEntries svc.doc META) k).filter (isStrEq v)).length ≠ 0 := by
      intro h0
      rw [List.length_eq_zero, List.filter_eq_nil_iff] at h0
      obtain ⟨x, hx, hpx⟩ := List.any_eq_true.mp h
      exact h0 x hx hpx
    simp [h, hne]
  | false =>
    have hz : ((getArrItems (getMapEntries svc.doc META) k).filter (isStrEq v)).length = 0 := by
      rw [List.length_eq_zero, List.filter_eq_nil_iff]
      intro x hx hpx
      have hco := List.any_eq_true.mpr ⟨x, hx, hpx⟩
      rw [h] at hco
      exact Bool.noConfusion hco
    have hv : isStrEq v (YVal.any (.astr v)) = true := by simp [isStrEq]
    simp [h, hz, List.filter_append, hv]

/-- C6 counterexample: starting from an array that already holds two copies
of `"v"` (installed by `set_meta_string_array`, which allows duplicates),
two successive `push_meta_array_item "k" "v"` calls leave TWO occurrences
of `"v"`, not exactly one as the claim states for every key and value. -/
theorem c6_counterexample_preexisting_duplicates :
    countOccur ((push_meta_array_item
        ((push_meta_array_item
          ((set_meta_string_array DocumentService.new "k" ["v", "v"]).1)
          "k" "v").1) "k" "v").1).doc "k" "v" = 2 ∧ (2 : Nat) ≠ 1 :=
  ⟨rfl, by decide⟩

/-- C6 amended: provided the array at the key does not already hold more
than one occurrence of the value (in particular when the key is absent, the
stored value is not an array, or the dedup invariant has been maintained),
two successive `push_meta_array_item` calls leave exactly one occurrence:
the item is appended only when no existing string element equals the value,
and the array at the key is created if absent. -/
theorem c6_push_twice_amended (svc : DocumentService) (k v : String)
    (h : countOccur svc.doc k v ≤ 1) :
    countOccur ((push_meta_array_item ((push_meta_array_item svc k v).1) k v).1).doc k v = 1 ∧
    ∃ arr, mapGet (metaContent ((push_meta_array_item svc k v).1).doc) k =
      some (.yarr arr) := by
  constructor
  · rw [push_countOccur, push_countOccur]
    cases h0 : countOccur svc.doc k v with
    | zero => simp [h0]
    | succ n =>
      have hn : n = 0 := by omega
      subst hn
      simp [h0]
  · unfold push_meta_array_item
    simp only [metaContent, getMapEntries_mapSet_self, mapGet_mapSet_self]
    exact ⟨_, rfl⟩

/-- Witness for C6 amended on a fresh document: the array is created and
after two pushes holds exactly one `"v"`. -/
theorem c6_push_twice_amended_witness :
    countOccur ((push_meta_array_item
        ((push_meta_array_item DocumentService.new "k" "v").1) "k" "v").1).doc "k" "v" = 1 ∧
    ∃ arr, mapGet (metaContent ((push_meta_array_item DocumentService.new "k" "v").1).doc) "k" =
      some (.yarr arr) :=
  c6_push_twice_amended DocumentService.new "k" "v" (by decide)

/-- Witness for C2: a single Move action with an absent `old_path` fails
with the Move guard's `InvalidOperation` and mutates nothing beyond the
Blocks ensure. -/
theorem c2_move_missing_fields_witness :
    apply_action DocumentService.new ([] ++ exMoveMissing :: []) =
      ({ DocumentService.new with doc := ensureBlocks DocumentService.new.doc },
       .error (.invalidOperation "Missing required fields for move operation")) :=
  c2_move_missing_fields DocumentService.new [] exMoveMissing [] DocumentService.new.doc
    rfl rfl (Or.inl rfl)
